import Mathlib

/-!
Verification of the example integrators of `pyodesys` (`pyodesys/integrators.py`)
against their natural-language specification.

The integrators are shallowly embedded over exact rational arithmetic:
state vectors (numpy arrays in the source) become `List ℚ`, the caller-supplied
callbacks `rhs` and `jac` become function parameters, and the external
`scipy.linalg.lu_factor`/`lu_solve` pair is modelled by one abstract parameter
`lus : Mat → Vec → Vec` mapping the already-assembled iteration matrix and a
residual vector to the solution of the corresponding linear system (the
factorization object itself carries no other observable information).
Unbounded `while` loops become fuel-indexed recursions returning `Option`;
`none` models the loop still running after the given number of iterations.
-/

namespace Pyodesys

/-- State vectors: numpy 1-d arrays over exact arithmetic. -/
abbrev Vec := List ℚ

/-- Dense matrices: numpy 2-d arrays (row major). -/
abbrev Mat := List (List ℚ)

/-- Elementwise vector addition (numpy `+` on same-length arrays). -/
def vadd (a b : Vec) : Vec := List.zipWith (fun s t => s + t) a b

/-- Elementwise vector subtraction (numpy `-`). -/
def vsub (a b : Vec) : Vec := List.zipWith (fun s t => s - t) a b

/-- Scalar times vector (numpy broadcasting `c*v`). -/
def smul (c : ℚ) (v : Vec) : Vec := v.map (fun t => c * t)

/-- Vector divided elementwise by a scalar (numpy `v/c`). -/
def vdiv (v : Vec) (c : ℚ) : Vec := v.map (fun t => t / c)

/-- Scalar times matrix. -/
def matSMul (c : ℚ) (m : Mat) : Mat := m.map (smul c)

/-- Elementwise matrix subtraction. -/
def matSub (a b : Mat) : Mat := List.zipWith vsub a b

/-- Embedding of `np.eye(n)`: the `n × n` identity matrix. -/
def eye (n : ℕ) : Mat :=
  (List.range n).map (fun i => (List.range n).map (fun j => if i = j then 1 else 0))

/-- Embedding of `np.sum(np.square(v))`: the sum of the squared components. -/
def sumSq (v : Vec) : ℚ := (v.map (fun t => t * t)).sum

/-- The Euclidean norm `np.sqrt(np.sum(np.square(v)))` computed by the
backward-Euler and trapezoidal Newton loops (`integrators.py` lines 134, 168). -/
noncomputable def l2norm (v : Vec) : ℝ := Real.sqrt ((sumSq v : ℚ) : ℝ)

/-- The RMS norm `np.sqrt(np.sum(np.square(v))/ny)` computed by the BDF2
Newton loop (`integrators.py` line 210). -/
noncomputable def rmsNorm (v : Vec) (ny : ℕ) : ℝ :=
  Real.sqrt (((sumSq v / (ny : ℚ) : ℚ) : ℝ))

/-- Loop guard of the backward-Euler/trapezoidal Newton correctors, source
`norm_delta_ynew > 1e-12` with `norm_delta_ynew = np.sqrt(np.sum(np.square(delta_ynew)))`.
Stated on the square so that the guard is executable, and with the source's
literal `1e-12` written as the equal rational `1/10^12` (scientific literals
on `ℚ` are irreducible); `beGuard_eq_true_iff` proves the guard equal to the
source's square-root based comparison against `1e-12`. -/
def beGuard (δ : Vec) : Bool := decide ((1 / 10 ^ 12 : ℚ) ^ 2 < sumSq δ)

/-- Norm part of the BDF2 Newton loop guard, source `norm_delta_ynew > tol_iter`
with `norm_delta_ynew = np.sqrt(np.sum(np.square(delta_ynew))/ny)`.  Stated on
the square so that the guard is executable; `bdf2Guard_eq_true_iff` proves it
equal to the source's square-root based comparison for any nonnegative
tolerance (every tolerance in the source is nonnegative, default `1e-12`). -/
def bdf2Guard (tol_iter : ℚ) (ny : ℕ) (δ : Vec) : Bool :=
  decide (tol_iter ^ 2 < sumSq δ / (ny : ℚ))

/-- One correction of the backward-Euler/trapezoidal Newton loops:
`delta_ynew = lu_solve(lu_piv, ynew - y - f*h)` where `f = rhs(x, ynew)`
(`integrators.py` lines 131-132 and 165-166).  `f` is the rhs at the step's
target point `x`, `lus` the solver for the frozen factorization of `h*j - I`. -/
def beDelta (f lus : Vec → Vec) (y : Vec) (h : ℚ) (ynew : Vec) : Vec :=
  lus (vsub (vsub ynew y) (smul h (f ynew)))

/-- The Newton corrector loop shared verbatim by the backward-Euler and
trapezoidal steppers (`integrators.py` lines 129-134 and 163-168):

    norm_delta_ynew = float('inf')
    while norm_delta_ynew > 1e-12:
        rhs(x, ynew, f)
        delta_ynew = lu_solve(lu_piv, ynew - y - f*h)
        ynew += delta_ynew
        norm_delta_ynew = np.sqrt(np.sum(np.square(delta_ynew)))

The source imposes no iteration cap, so the recursion is indexed by fuel:
`none` means the loop is still running after `fuel` iterations.  On success
the result carries the converged iterate and the number of iterations run. -/
def beNewton (f lus : Vec → Vec) (y : Vec) (h : ℚ) : ℕ → Vec → Option (Vec × ℕ)
  | 0, _ => none
  | fuel + 1, ynew =>
    let δ := beDelta f lus y h ynew
    let ynew2 := vadd ynew δ
    if beGuard δ then
      (beNewton f lus y h fuel ynew2).map (fun r => (r.1, r.2 + 1))
    else
      some (ynew2, 1)

/-- One correction of the BDF2 Newton loop:
`delta_ynew = lu_solve(lu_piv, ynew - alpha1*yout[-1] - alpha2*yout[-2] - beta0*h*f)`
where `f = rhs(x, ynew)` (`integrators.py` lines 207-208). -/
def bdf2Delta (f lus : Vec → Vec) (ycur yprev : Vec) (alpha1 alpha2 beta0h : ℚ)
    (ynew : Vec) : Vec :=
  lus (vsub (vsub (vsub ynew (smul alpha1 ycur)) (smul alpha2 yprev)) (smul beta0h (f ynew)))

/-- The BDF2 Newton corrector loop (`integrators.py` lines 204-211):

    norm_delta_ynew = float('inf')
    iiter = 0
    while norm_delta_ynew > tol_iter and iiter < iter_max:
        rhs(x, ynew, f)
        delta_ynew = lu_solve(lu_piv, ynew - alpha1*yout[-1] - alpha2*yout[-2] - beta0*h*f)
        ynew += delta_ynew
        norm_delta_ynew = np.sqrt(np.sum(np.square(delta_ynew))/ny)
        iiter += 1

The recursion is on the remaining iteration budget `iter_max - iiter`; the
loop is total and the result carries the final iterate together with the
number of iterations run. -/
def bdf2Newton (f lus : Vec → Vec) (ycur yprev : Vec) (alpha1 alpha2 beta0h tol : ℚ)
    (ny : ℕ) : ℕ → Vec → Vec × ℕ
  | 0, ynew => (ynew, 0)
  | rem + 1, ynew =>
    let δ := bdf2Delta f lus ycur yprev alpha1 alpha2 beta0h ynew
    let ynew2 := vadd ynew δ
    if bdf2Guard tol ny δ then
      let r := bdf2Newton f lus ycur yprev alpha1 alpha2 beta0h tol ny rem ynew2
      (r.1, r.2 + 1)
    else
      (ynew2, 1)

/-- One full update of the BDF2 Newton loop body, `ynew += delta_ynew`. -/
def bdf2Body (f lus : Vec → Vec) (ycur yprev : Vec) (alpha1 alpha2 beta0h : ℚ)
    (ynew : Vec) : Vec :=
  vadd ynew (bdf2Delta f lus ycur yprev alpha1 alpha2 beta0h ynew)

/-- BDF2 (FVC) coefficient `beta0 = (rho+1)/(2*rho+1)` (`integrators.py` line 197). -/
def bdf2Beta0 (rho : ℚ) : ℚ := (rho + 1) / (2 * rho + 1)

/-- BDF2 (FVC) coefficient `alpha1 = -(rho+1)**2/(2*rho+1)` (`integrators.py` line 198). -/
def bdf2Alpha1 (rho : ℚ) : ℚ := (-((rho + 1) ^ 2)) / (2 * rho + 1)

/-- BDF2 (FVC) coefficient `alpha2 = rho**2/(2*rho+1)` (`integrators.py` line 199). -/
def bdf2Alpha2 (rho : ℚ) : ℚ := rho ^ 2 / (2 * rho + 1)

/-- BDF2 (FVC) coefficient `gamma = beta0*h` (`integrators.py` line 200). -/
def bdf2Gamma (rho h : ℚ) : ℚ := bdf2Beta0 rho * h

/-- Result of an `integrate_predefined` call: the trajectory `yout` and the
reported statistic `nfev`, plus two instrumentation counters that are not part
of the source's return value but merely count its side effects: `rhsCalls` is
the number of times the call invoked the `rhs` callback and `newtonIters` the
total number of Newton iterations run (0 for the explicit steppers). -/
structure PredefResult where
  yout : List Vec
  nfev : ℕ
  rhsCalls : ℕ
  newtonIters : ℕ
  deriving DecidableEq

/-- Result of `RK4_example_integrator.integrate_adaptive`: the generated grid
`xout`, the trajectory `yout` and the reported `nfev` (an integer, since the
source computes `n*4` from `n = int(math.ceil(xspan/dx0))` which can be
nonpositive).  `rhsCalls` is instrumentation counting actual `rhs` invocations. -/
structure AdaptiveResult where
  xout : List ℚ
  yout : List Vec
  nfev : ℤ
  rhsCalls : ℕ
  deriving DecidableEq

/-- One classical RK4 step of size `h` from `(x, y)` (`integrators.py`
lines 37-41 and 55-59):

    rhs(x,       y,            k[0])
    rhs(x + h/2, y + h/2*k[0], k[1])
    rhs(x + h/2, y + h/2*k[1], k[2])
    rhs(x + h,   y + h*k[2],   k[3])
    y + h/6 * (k[0] + 2*k[1] + 2*k[2] + k[3])
-/
def rk4Step (rhs : ℚ → Vec → Vec) (x h : ℚ) (y : Vec) : Vec :=
  let k0 := rhs x y
  let k1 := rhs (x + h / 2) (vadd y (smul (h / 2) k0))
  let k2 := rhs (x + h / 2) (vadd y (smul (h / 2) k1))
  let k3 := rhs (x + h) (vadd y (smul h k2))
  vadd y (smul (h / 6) (vadd (vadd k0 (smul 2 k1)) (vadd (smul 2 k2) k3)))

namespace RK4_example_integrator

/-- The loop of `integrate_adaptive` (`integrators.py` lines 34-42), indexed by
the number of remaining iterations.  Each iteration reads the current
`x = xout[-1]`, `y = yout[-1]` (carried here as arguments), takes a step of
size `h = min(dx0, xend - x)` and appends `x + h` and the RK4 update. -/
def adaptiveGo (rhs : ℚ → Vec → Vec) (xend dx0 : ℚ) : ℕ → ℚ → Vec → List ℚ × List Vec
  | 0, x, y => ([x], [y])
  | m + 1, x, y =>
    let h := min dx0 (xend - x)
    let p := adaptiveGo rhs xend dx0 m (x + h) (rk4Step rhs x h y)
    (x :: p.1, y :: p.2)

/-- The `x`-components of the grid generated by `adaptiveGo`: the update
`x := x + min(dx0, xend - x)` does not depend on `rhs` or on the state, so the
generated grid factors through this function (lemma `adaptiveGo_fst`). -/
def xTrace (xend dx0 : ℚ) : ℕ → ℚ → List ℚ
  | 0, x => [x]
  | m + 1, x => x :: xTrace xend dx0 m (x + min dx0 (xend - x))

/-- Embedding of `RK4_example_integrator.integrate_adaptive` (`integrators.py` lines 26-43).
`n = int(math.ceil(xspan/dx0))`; the loop `for i in range(0, n+1)` runs
`max(0, n+1)` iterations; the reported stats are `{'nfev': n*4}`.  The `jac`
argument of the source is unused by the method and omitted here. -/
def integrate_adaptive (rhs : ℚ → Vec → Vec) (y0 : Vec) (x0 xend dx0 : ℚ) :
    AdaptiveResult :=
  let n : ℤ := ⌈(xend - x0) / dx0⌉
  let steps := (n + 1).toNat
  let p := adaptiveGo rhs xend dx0 steps x0 y0
  ⟨p.1, p.2, n * 4, 4 * steps⟩

/-- The loop of RK4 `integrate_predefined` (`integrators.py` lines 52-60) over
the remaining grid points `xout[1:]`, carrying `x_old` and `y = yout[-1]`. -/
def predefGo (rhs : ℚ → Vec → Vec) : ℚ → Vec → List ℚ → List Vec
  | _, _, [] => []
  | xold, y, x :: xs =>
    let h := x - xold
    let y2 := rk4Step rhs xold h y
    y2 :: predefGo rhs x y2 xs

/-- Embedding of `RK4_example_integrator.integrate_predefined` (`integrators.py` lines
46-61); `none` models the `IndexError` raised by `x_old = xout[0]` on an empty
grid.  Stats: `{'nfev': (len(xout)-1)*4}`. -/
def integrate_predefined (rhs : ℚ → Vec → Vec) (y0 : Vec) (xout : List ℚ) :
    Option PredefResult :=
  match xout with
  | [] => none
  | x0 :: rest =>
    some ⟨y0 :: predefGo rhs x0 y0 rest, ((x0 :: rest).length - 1) * 4, 4 * rest.length, 0⟩

end RK4_example_integrator

namespace EulerForward_example_integrator

/-- The loop of forward-Euler `integrate_predefined` (`integrators.py`
lines 76-81): `rhs(x_old, y, f); yout.append(y + h*f)`. -/
def predefGo (rhs : ℚ → Vec → Vec) : ℚ → Vec → List ℚ → List Vec
  | _, _, [] => []
  | xold, y, x :: xs =>
    let h := x - xold
    let y2 := vadd y (smul h (rhs xold y))
    y2 :: predefGo rhs x y2 xs

/-- Embedding of `EulerForward_example_integrator.integrate_predefined` (`integrators.py`
lines 70-82).  Stats: `{'nfev': len(xout)-1}`. -/
def integrate_predefined (rhs : ℚ → Vec → Vec) (y0 : Vec) (xout : List ℚ) :
    Option PredefResult :=
  match xout with
  | [] => none
  | x0 :: rest =>
    some ⟨y0 :: predefGo rhs x0 y0 rest, (x0 :: rest).length - 1, rest.length, 0⟩

end EulerForward_example_integrator

namespace Midpoint_example_integrator

/-- The loop of midpoint `integrate_predefined` (`integrators.py` lines
97-104): a forward-Euler predictor `dy_efw = h*f(x_old, y)` followed by an rhs
evaluation at the half step, `yout.append(y + h*f(x_old + h/2, y + dy_efw/2))`. -/
def predefGo (rhs : ℚ → Vec → Vec) : ℚ → Vec → List ℚ → List Vec
  | _, _, [] => []
  | xold, y, x :: xs =>
    let h := x - xold
    let dy_efw := smul h (rhs xold y)
    let y2 := vadd y (smul h (rhs (xold + h / 2) (vadd y (vdiv dy_efw 2))))
    y2 :: predefGo rhs x y2 xs

/-- Embedding of `Midpoint_example_integrator.integrate_predefined` (`integrators.py` lines
91-105).  Stats: `{'nfev': len(xout)-1}` although two rhs calls happen per step. -/
def integrate_predefined (rhs : ℚ → Vec → Vec) (y0 : Vec) (xout : List ℚ) :
    Option PredefResult :=
  match xout with
  | [] => none
  | x0 :: rest =>
    some ⟨y0 :: predefGo rhs x0 y0 rest, (x0 :: rest).length - 1, 2 * rest.length, 0⟩

end Midpoint_example_integrator

namespace EulerBackward_example_integrator

/-- One backward-Euler step from `(x_old, y)` to `x` (`integrators.py` lines
123-134): factorize `h*j - I` with `j = jac(x_old, y)`, take the explicit
predictor `ynew = y + f*h` with `f = rhs(x, y)`, then run the shared Newton
corrector.  `lus M` models `lu_solve(lu_factor(M), ·)`; `ny = len(y0)` is the
size used by `np.eye`.  Returns the corrected state and the number of Newton
iterations, or `none` if the corrector did not converge within `fuel`. -/
def step (rhs : ℚ → Vec → Vec) (jac : ℚ → Vec → Mat) (lus : Mat → Vec → Vec)
    (fuel ny : ℕ) (xold x : ℚ) (y : Vec) : Option (Vec × ℕ) :=
  let h := x - xold
  let j := jac xold y
  let lupiv := lus (matSub (matSMul h j) (eye ny))
  let fv := rhs x y
  let ynew0 := vadd y (smul h fv)
  beNewton (rhs x) lupiv y h fuel ynew0

/-- The `for i, x in enumerate(xout[1:], 1)` loop of backward Euler
(`integrators.py` lines 122-137), accumulating the appended states and total
Newton iterations. -/
def predefGo (rhs : ℚ → Vec → Vec) (jac : ℚ → Vec → Mat) (lus : Mat → Vec → Vec)
    (fuel ny : ℕ) : ℚ → Vec → List ℚ → Option (List Vec × ℕ)
  | _, _, [] => some ([], 0)
  | xold, y, x :: xs =>
    match step rhs jac lus fuel ny xold x y with
    | none => none
    | some (ynew, iters) =>
      match predefGo rhs jac lus fuel ny x ynew xs with
      | none => none
      | some p => some (ynew :: p.1, iters + p.2)

/-- Embedding of `EulerBackward_example_integrator.integrate_predefined` (`integrators.py`
lines 114-138).  Stats: `{'nfev': len(xout)-1}`; the actual rhs-call count is
one predictor call per step plus one call per Newton iteration. -/
def integrate_predefined (rhs : ℚ → Vec → Vec) (jac : ℚ → Vec → Mat)
    (lus : Mat → Vec → Vec) (fuel : ℕ) (y0 : Vec) (xout : List ℚ) :
    Option PredefResult :=
  match xout with
  | [] => none
  | x0 :: rest =>
    (predefGo rhs jac lus fuel y0.length x0 y0 rest).map
      (fun p => ⟨y0 :: p.1, (x0 :: rest).length - 1, rest.length + p.2, p.2⟩)

end EulerBackward_example_integrator

namespace Trapezoidal_example_integrator

/-- One trapezoidal step from `(x_old, y)` to `x` (`integrators.py` lines
156-170): identical frozen factorization, predictor and Newton corrector as
backward Euler, but the appended value is `(ynew + y + euler_fw_dy)/2` where
`euler_fw_dy = f*h` is the forward-Euler increment computed before the loop. -/
def step (rhs : ℚ → Vec → Vec) (jac : ℚ → Vec → Mat) (lus : Mat → Vec → Vec)
    (fuel ny : ℕ) (xold x : ℚ) (y : Vec) : Option (Vec × ℕ) :=
  let h := x - xold
  let j := jac xold y
  let lupiv := lus (matSub (matSMul h j) (eye ny))
  let fv := rhs x y
  let euler_fw_dy := smul h fv
  let ynew0 := vadd y euler_fw_dy
  (beNewton (rhs x) lupiv y h fuel ynew0).map
    (fun r => (vdiv (vadd (vadd r.1 y) euler_fw_dy) 2, r.2))

/-- The `for i, x in enumerate(xout[1:], 1)` loop of the trapezoidal stepper
(`integrators.py` lines 155-171). -/
def predefGo (rhs : ℚ → Vec → Vec) (jac : ℚ → Vec → Mat) (lus : Mat → Vec → Vec)
    (fuel ny : ℕ) : ℚ → Vec → List ℚ → Option (List Vec × ℕ)
  | _, _, [] => some ([], 0)
  | xold, y, x :: xs =>
    match step rhs jac lus fuel ny xold x y with
    | none => none
    | some (ynew, iters) =>
      match predefGo rhs jac lus fuel ny x ynew xs with
      | none => none
      | some p => some (ynew :: p.1, iters + p.2)

/-- Embedding of `Trapezoidal_example_integrator.integrate_predefined` (`integrators.py`
lines 147-172).  Stats: `{'nfev': len(xout)-1}`. -/
def integrate_predefined (rhs : ℚ → Vec → Vec) (jac : ℚ → Vec → Mat)
    (lus : Mat → Vec → Vec) (fuel : ℕ) (y0 : Vec) (xout : List ℚ) :
    Option PredefResult :=
  match xout with
  | [] => none
  | x0 :: rest =>
    (predefGo rhs jac lus fuel y0.length x0 y0 rest).map
      (fun p => ⟨y0 :: p.1, (x0 :: rest).length - 1, rest.length + p.2, p.2⟩)

end Trapezoidal_example_integrator

namespace BDF2FVC_example_integrator

/-- One BDF2 (FVC) step from `(x_old, yout[-1])` to `x` given the previous
step size `h_old` and history `yout[-2]` (`integrators.py` lines 192-211):
step-ratio coefficients, frozen factorization of `gamma*J - I` with
`J = jac(x_old, yout[-1])`, predictor
`ynew = yout[-1] + beta0*h*f - alpha1*yout[-1] - alpha2*yout[-2]` with
`f = rhs(x, yout[-1])`, then the capped BDF2 Newton corrector. -/
def step (rhs : ℚ → Vec → Vec) (jac : ℚ → Vec → Mat) (lus : Mat → Vec → Vec)
    (tol_iter : ℚ) (iter_max ny : ℕ) (xold hold x : ℚ) (yprev ycur : Vec) :
    Vec × ℕ :=
  let J := jac xold ycur
  let h := x - xold
  let rho := h / hold
  let lupiv := lus (matSub (matSMul (bdf2Gamma rho h) J) (eye ny))
  let fv := rhs x ycur
  let ynew0 := vsub (vsub (vadd ycur (smul (bdf2Beta0 rho * h) fv))
    (smul (bdf2Alpha1 rho) ycur)) (smul (bdf2Alpha2 rho) yprev)
  bdf2Newton (rhs x) lupiv ycur yprev (bdf2Alpha1 rho) (bdf2Alpha2 rho)
    (bdf2Beta0 rho * h) tol_iter ny iter_max ynew0

/-- The `for i, x in enumerate(xout[2:], 2)` loop of BDF2 (`integrators.py`
lines 191-214), carrying `x_old`, `h_old` and the last two states. -/
def predefGo (rhs : ℚ → Vec → Vec) (jac : ℚ → Vec → Mat) (lus : Mat → Vec → Vec)
    (tol_iter : ℚ) (iter_max ny : ℕ) :
    ℚ → ℚ → Vec → Vec → List ℚ → List Vec × ℕ
  | _, _, _, _, [] => ([], 0)
  | xold, hold, yprev, ycur, x :: xs =>
    let r := step rhs jac lus tol_iter iter_max ny xold hold x yprev ycur
    let t := predefGo rhs jac lus tol_iter iter_max ny x (x - xold) ycur r.1 xs
    (r.1 :: t.1, r.2 + t.2)

/-- Embedding of `BDF2FVC_example_integrator.integrate_predefined` (`integrators.py` lines
178-215).  The first step is bootstrapped through
`Trapezoidal_example_integrator.integrate_predefined(rhs, jac, y0, xout[:2])`,
whose row 1 becomes `yout[1]`; `none` models either a non-converging bootstrap
corrector or the `IndexError` of `[0][1,:]` when the grid has fewer than two
points.  Stats: `{'nfev': len(xout)-1}`. -/
def integrate_predefined (rhs : ℚ → Vec → Vec) (jac : ℚ → Vec → Mat)
    (lus : Mat → Vec → Vec) (fuel : ℕ) (tol_iter : ℚ) (iter_max : ℕ)
    (y0 : Vec) (xout : List ℚ) : Option PredefResult :=
  match Trapezoidal_example_integrator.integrate_predefined rhs jac lus fuel y0
      (xout.take 2) with
  | none => none
  | some tr =>
    match xout, tr.yout with
    | x0 :: x1 :: rest, _ :: y1 :: _ =>
      let ny := y0.length
      let r := predefGo rhs jac lus tol_iter iter_max ny x1 (x1 - x0) y0 y1 rest
      some ⟨y0 :: y1 :: r.1, (x0 :: x1 :: rest).length - 1,
        tr.rhsCalls + rest.length + r.2, tr.newtonIters + r.2⟩
    | _, _ => none

end BDF2FVC_example_integrator

/-! ### Concrete callback instances used by witnesses -/

/-- The constant-zero rhs of the one-dimensional system `dy/dx = 0`. -/
def rhs0 : ℚ → Vec → Vec := fun _ _ => [0]

/-- The (exact) Jacobian of `rhs0`. -/
def jac0 : ℚ → Vec → Mat := fun _ _ => [[0]]

/-- Exact linear solver for the `1 × 1` iteration matrices arising from `jac0`:
for every step the iteration matrix is `γ·0 - I = -I`, whose solve negates. -/
def lusNeg : Mat → Vec → Vec := fun _ v => smul (-1) v

/-- A rhs callback that ignores its input (used to exhibit divergence). -/
def vecZero : Vec → Vec := fun _ => [0]

/-- A linear-solve callback returning a fixed unit correction (used to exhibit
a Newton loop whose corrections never shrink). -/
def vecOne : Vec → Vec := fun _ => [1]

/-! ### Norm lemmas -/

lemma sumSq_nonneg (v : Vec) : 0 ≤ sumSq v := by
  refine List.sum_nonneg ?_
  intro q hq
  obtain ⟨t, _, rfl⟩ := List.mem_map.mp hq
  exact mul_self_nonneg t

/-- The executable backward-Euler/trapezoidal loop guard coincides with the
source's comparison `np.sqrt(np.sum(np.square(delta))) > 1e-12`. -/
lemma beGuard_eq_true_iff (δ : Vec) :
    beGuard δ = true ↔ (1e-12 : ℝ) < l2norm δ := by
  have hcast : ((1 / 10 ^ 12 : ℚ) : ℝ) = (1e-12 : ℝ) := by norm_num
  rw [beGuard, decide_eq_true_eq, l2norm, Real.lt_sqrt (by norm_num), ← hcast]
  exact_mod_cast Iff.rfl

/-- The executable BDF2 loop guard coincides with the source's comparison
`np.sqrt(np.sum(np.square(delta))/ny) > tol_iter` for a nonnegative tolerance. -/
lemma bdf2Guard_eq_true_iff (tol : ℚ) (ny : ℕ) (δ : Vec) (htol : 0 ≤ tol) :
    bdf2Guard tol ny δ = true ↔ (tol : ℝ) < rmsNorm δ ny := by
  rw [bdf2Guard, decide_eq_true_eq, rmsNorm, Real.lt_sqrt (by exact_mod_cast htol)]
  exact_mod_cast Iff.rfl

/-- Every successful run of `beNewton` executes at least one iteration (the
source initializes `norm_delta_ynew = float('inf')`). -/
lemma beNewton_iters_pos (f lus : Vec → Vec) (y : Vec) (h : ℚ) :
    ∀ (fuel : ℕ) (ynew : Vec) (r : Vec × ℕ),
      beNewton f lus y h fuel ynew = some r → 1 ≤ r.2 := by
  intro fuel
  induction fuel with
  | zero => intro ynew r hr; exact absurd hr (by simp [beNewton])
  | succ n ih =>
    intro ynew r hr
    simp only [beNewton] at hr
    by_cases hg : beGuard (beDelta f lus y h ynew)
    · rw [if_pos hg] at hr
      obtain ⟨s, _, hs⟩ := Option.map_eq_some'.mp hr
      rw [← hs]
      exact Nat.le_add_left 1 s.2
    · rw [if_neg hg] at hr
      injection hr with hr2
      rw [← hr2]

/-- With a positive iteration budget remaining, `beNewton` returns its updated
iterate with iteration count 1 exactly when the Euclidean norm of the
correction is at most `1e-12`; in every other success the count exceeds one. -/
lemma beNewton_exit_iff (f lus : Vec → Vec) (y : Vec) (h : ℚ) (fuel : ℕ) (ynew : Vec) :
    beNewton f lus y h (fuel + 1) ynew =
        some (vadd ynew (beDelta f lus y h ynew), 1) ↔
      l2norm (beDelta f lus y h ynew) ≤ 1e-12 := by
  by_cases hg : beGuard (beDelta f lus y h ynew)
  · have hlt := (beGuard_eq_true_iff _).mp hg
    simp only [beNewton, hg, if_true]
    constructor
    · intro hmap
      obtain ⟨r, hrec, hr⟩ := Option.map_eq_some'.mp hmap
      have hpos := beNewton_iters_pos f lus y h fuel _ r hrec
      rw [Prod.mk.injEq] at hr
      omega
    · intro hle
      exact absurd hle (not_le.mpr hlt)
  · have hle : l2norm (beDelta f lus y h ynew) ≤ 1e-12 := by
      by_contra hlt
      exact hg ((beGuard_eq_true_iff _).mpr (not_le.mp hlt))
    simp only [beNewton, hg, if_false]
    exact iff_of_true rfl hle

/-- The loop `beNewton` runs forever (returns `none` for every fuel) whenever every
correction produced by the residual/solve pair stays above the tolerance. -/
lemma beNewton_none_of_divergent (f lus : Vec → Vec) (y : Vec) (h : ℚ)
    (hdiv : ∀ v : Vec, beGuard (beDelta f lus y h v) = true) :
    ∀ (fuel : ℕ) (ynew : Vec), beNewton f lus y h fuel ynew = none := by
  intro fuel
  induction fuel with
  | zero => intro ynew; rfl
  | succ n ih =>
    intro ynew
    simp only [beNewton, hdiv, if_true, ih, Option.map_none']

/-- The BDF2 Newton loop runs at most its remaining iteration budget. -/
lemma bdf2Newton_iters_le (f lus : Vec → Vec) (ycur yprev : Vec)
    (a1 a2 b0h tol : ℚ) (ny : ℕ) :
    ∀ (rem : ℕ) (ynew : Vec),
      (bdf2Newton f lus ycur yprev a1 a2 b0h tol ny rem ynew).2 ≤ rem := by
  intro rem
  induction rem with
  | zero => intro ynew; exact le_refl 0
  | succ n ih =>
    intro ynew
    simp only [bdf2Newton]
    by_cases hg : bdf2Guard tol ny (bdf2Delta f lus ycur yprev a1 a2 b0h ynew)
    · simpa [hg] using Nat.succ_le_succ (ih _)
    · simp [hg]

/-- When every correction stays above the tolerance, the BDF2 Newton loop
exhausts its budget, returning the `iter_max`-fold update of the initial
guess (the "last iterate") together with the iteration count `iter_max`. -/
lemma bdf2Newton_of_divergent (f lus : Vec → Vec) (ycur yprev : Vec)
    (a1 a2 b0h tol : ℚ) (ny : ℕ)
    (hdiv : ∀ v : Vec, bdf2Guard tol ny (bdf2Delta f lus ycur yprev a1 a2 b0h v) = true) :
    ∀ (rem : ℕ) (ynew : Vec),
      bdf2Newton f lus ycur yprev a1 a2 b0h tol ny rem ynew =
        ((bdf2Body f lus ycur yprev a1 a2 b0h)^[rem] ynew, rem) := by
  intro rem
  induction rem with
  | zero => intro ynew; rfl
  | succ n ih =>
    intro ynew
    simp only [bdf2Newton, hdiv, if_true, ih]
    rw [Function.iterate_succ_apply]
    rfl

/-- Every positive-budget run of the BDF2 Newton loop executes at least one
iteration (the source initializes `norm_delta_ynew = float('inf')`). -/
lemma bdf2Newton_iters_pos (f lus : Vec → Vec) (ycur yprev : Vec)
    (a1 a2 b0h tol : ℚ) (ny rem : ℕ) (ynew : Vec) :
    1 ≤ (bdf2Newton f lus ycur yprev a1 a2 b0h tol ny (rem + 1) ynew).2 := by
  simp only [bdf2Newton]
  by_cases hg : bdf2Guard tol ny (bdf2Delta f lus ycur yprev a1 a2 b0h ynew)
  · simp [hg]
  · simp [hg]

/-- One-step unfolding of the BDF2 Newton loop at a positive budget. -/
lemma bdf2Newton_succ (f lus : Vec → Vec) (ycur yprev : Vec)
    (a1 a2 b0h tol : ℚ) (ny rem : ℕ) (ynew : Vec) :
    bdf2Newton f lus ycur yprev a1 a2 b0h tol ny (rem + 1) ynew =
      (if bdf2Guard tol ny (bdf2Delta f lus ycur yprev a1 a2 b0h ynew) then
        ((bdf2Newton f lus ycur yprev a1 a2 b0h tol ny rem
            (vadd ynew (bdf2Delta f lus ycur yprev a1 a2 b0h ynew))).1,
          (bdf2Newton f lus ycur yprev a1 a2 b0h tol ny rem
            (vadd ynew (bdf2Delta f lus ycur yprev a1 a2 b0h ynew))).2 + 1)
      else (vadd ynew (bdf2Delta f lus ycur yprev a1 a2 b0h ynew), 1)) := rfl

/-- With at least two iterations of budget remaining, the BDF2 Newton loop
returns its updated iterate with count 1 exactly when the RMS norm of the
correction is at most the (nonnegative) tolerance. -/
lemma bdf2Newton_exit_iff (f lus : Vec → Vec) (ycur yprev : Vec)
    (a1 a2 b0h tol : ℚ) (ny rem : ℕ) (ynew : Vec) (htol : 0 ≤ tol) :
    bdf2Newton f lus ycur yprev a1 a2 b0h tol ny (rem + 2) ynew =
        (vadd ynew (bdf2Delta f lus ycur yprev a1 a2 b0h ynew), 1) ↔
      rmsNorm (bdf2Delta f lus ycur yprev a1 a2 b0h ynew) ny ≤ tol := by
  by_cases hg : bdf2Guard tol ny (bdf2Delta f lus ycur yprev a1 a2 b0h ynew)
  · have hlt := (bdf2Guard_eq_true_iff _ _ _ htol).mp hg
    rw [show rem + 2 = (rem + 1) + 1 from rfl, bdf2Newton_succ, if_pos hg]
    constructor
    · intro hpair
      rw [Prod.mk.injEq] at hpair
      have hpos := bdf2Newton_iters_pos f lus ycur yprev a1 a2 b0h tol ny rem
        (vadd ynew (bdf2Delta f lus ycur yprev a1 a2 b0h ynew))
      omega
    · intro hle
      exact absurd hle (not_le.mpr hlt)
  · have hle : rmsNorm (bdf2Delta f lus ycur yprev a1 a2 b0h ynew) ny ≤ tol := by
      by_contra hlt
      exact hg ((bdf2Guard_eq_true_iff _ _ _ htol).mpr (not_le.mp hlt))
    rw [show rem + 2 = (rem + 1) + 1 from rfl, bdf2Newton_succ, if_neg hg]
    exact iff_of_true rfl hle

/-! ### Claim C1 -/

/-- C1, counterexample.  The claim states that the backward-Euler loop-exit
test compares the RMS norm `sqrt(sum(delta_i^2)/ny)` against `1e-12` and that
the loop continues exactly while that RMS norm is at or above the tolerance.
For the correction `delta = [8e-13, 8e-13]` (so `ny = 2`) the RMS norm is
`8e-13 < 1e-12`, yet the backward-Euler guard (which uses the plain Euclidean
norm `sqrt(1.28e-24) ≈ 1.13e-12 > 1e-12`) keeps looping, refuting the claimed
equivalence at this concrete input. -/
theorem newton_exit_rms_claim_false :
    ¬ (beGuard [8 / 10 ^ 13, 8 / 10 ^ 13] = true ↔
        (1e-12 : ℝ) ≤ rmsNorm [8 / 10 ^ 13, 8 / 10 ^ 13] 2) := by
  intro hiff
  have h1 : beGuard [8 / 10 ^ 13, 8 / 10 ^ 13] = true := by with_unfolding_all rfl
  have h2 := hiff.mp h1
  have h3 : rmsNorm [8 / 10 ^ 13, 8 / 10 ^ 13] 2 < (1e-12 : ℝ) := by
    rw [rmsNorm, Real.sqrt_lt' (by norm_num)]
    norm_num [sumSq]
  exact absurd h2 (not_le.mpr h3)

/-- C1 (amended).  The Newton loop-exit tests compare strictly, and only BDF2
uses the RMS norm: the backward-Euler/trapezoidal loop continues exactly while
the plain Euclidean norm `sqrt(sum(delta_i^2))` is strictly above `1e-12`,
and the BDF2 loop's norm test continues exactly while the RMS norm
`sqrt(sum(delta_i^2)/ny)` is strictly above the (nonnegative) `tol_iter`;
equivalently, with budget remaining each loop returns the freshly updated
iterate immediately exactly when its norm of the correction is at most its
tolerance. -/
theorem newton_exit_norm_spec :
    (∀ δ : Vec, beGuard δ = true ↔ (1e-12 : ℝ) < l2norm δ) ∧
    (∀ (tol : ℚ) (ny : ℕ) (δ : Vec), 0 ≤ tol →
      (bdf2Guard tol ny δ = true ↔ (tol : ℝ) < rmsNorm δ ny)) ∧
    (∀ (f lus : Vec → Vec) (y : Vec) (h : ℚ) (fuel : ℕ) (ynew : Vec),
      beNewton f lus y h (fuel + 1) ynew =
          some (vadd ynew (beDelta f lus y h ynew), 1) ↔
        l2norm (beDelta f lus y h ynew) ≤ 1e-12) ∧
    (∀ (f lus : Vec → Vec) (ycur yprev : Vec) (a1 a2 b0h tol : ℚ) (ny rem : ℕ)
      (ynew : Vec), 0 ≤ tol →
      (bdf2Newton f lus ycur yprev a1 a2 b0h tol ny (rem + 2) ynew =
          (vadd ynew (bdf2Delta f lus ycur yprev a1 a2 b0h ynew), 1) ↔
        rmsNorm (bdf2Delta f lus ycur yprev a1 a2 b0h ynew) ny ≤ tol)) :=
  ⟨beGuard_eq_true_iff,
   fun tol ny δ htol => bdf2Guard_eq_true_iff tol ny δ htol,
   beNewton_exit_iff,
   fun f lus ycur yprev a1 a2 b0h tol ny rem ynew htol =>
     bdf2Newton_exit_iff f lus ycur yprev a1 a2 b0h tol ny rem ynew htol⟩

/-- C1 witness: the amended statement instantiated at the BDF2 guard with
tolerance `1/10^12` (the default `1e-12`), `ny = 1` and correction `[2/10^12]`. -/
theorem newton_exit_norm_spec_witness :
    bdf2Guard (1 / 10 ^ 12) 1 [2 / 10 ^ 12] = true ↔
      ((1 / 10 ^ 12 : ℚ) : ℝ) < rmsNorm [2 / 10 ^ 12] 1 :=
  newton_exit_norm_spec.2.1 (1 / 10 ^ 12) 1 [2 / 10 ^ 12] (by norm_num)

/-! ### Claim C5 -/

/-- C5.  The backward-Euler/trapezoidal Newton loop has no iteration cap: when
every correction stays above the tolerance it returns `none` for every fuel
(the source loops forever).  The BDF2 Newton loop executes at most `iter_max`
iterations, and when every correction stays above `tol_iter` it stops at
exactly `iter_max` iterations and reports the `iter_max`-fold updated iterate
(which `BDF2FVC_example_integrator.predefGo` then appends to the trajectory,
returning normally). -/
theorem newton_iteration_caps :
    (∀ (f lus : Vec → Vec) (y : Vec) (h : ℚ),
      (∀ v : Vec, beGuard (beDelta f lus y h v) = true) →
      ∀ (fuel : ℕ) (ynew : Vec), beNewton f lus y h fuel ynew = none) ∧
    (∀ (f lus : Vec → Vec) (ycur yprev : Vec) (a1 a2 b0h tol : ℚ)
      (ny iter_max : ℕ) (ynew : Vec),
      (bdf2Newton f lus ycur yprev a1 a2 b0h tol ny iter_max ynew).2 ≤ iter_max) ∧
    (∀ (f lus : Vec → Vec) (ycur yprev : Vec) (a1 a2 b0h tol : ℚ) (ny : ℕ),
      (∀ v : Vec, bdf2Guard tol ny (bdf2Delta f lus ycur yprev a1 a2 b0h v) = true) →
      ∀ (iter_max : ℕ) (ynew : Vec),
        bdf2Newton f lus ycur yprev a1 a2 b0h tol ny iter_max ynew =
          ((bdf2Body f lus ycur yprev a1 a2 b0h)^[iter_max] ynew, iter_max)) :=
  ⟨beNewton_none_of_divergent,
   fun f lus ycur yprev a1 a2 b0h tol ny iter_max ynew =>
     bdf2Newton_iters_le f lus ycur yprev a1 a2 b0h tol ny iter_max ynew,
   bdf2Newton_of_divergent⟩

/-- C5 witness: a divergent correction sequence (every correction is `[1]`)
makes the uncapped loop return `none` at fuel 5, while the BDF2 loop runs
exactly its default cap of 20 iterations. -/
theorem newton_iteration_caps_witness :
    beNewton vecZero vecOne [0] 1 5 [0] = none ∧
    bdf2Newton vecZero vecOne [0] [0] 0 0 1 (1 / 10 ^ 12) 1 20 [0] =
      ((bdf2Body vecZero vecOne [0] [0] 0 0 1)^[20] [0], 20) :=
  ⟨newton_iteration_caps.1 vecZero vecOne [0] 1
     (fun v => by
       have hδ : beDelta vecZero vecOne [0] 1 v = [1] := rfl
       rw [hδ]
       with_unfolding_all rfl) 5 [0],
   newton_iteration_caps.2.2 vecZero vecOne [0] [0] 0 0 1 (1 / 10 ^ 12) 1
     (fun v => by
       have hδ : bdf2Delta vecZero vecOne [0] [0] 0 0 1 v = [1] := rfl
       rw [hδ]
       with_unfolding_all rfl) 20 [0]⟩

/-! ### Claim C6 -/

/-- C6.  For every BDF2 step ratio `rho > 0` the coefficients used by
`BDF2FVC_example_integrator.step` are `beta0 = (rho+1)/(2*rho+1)`,
`alpha1 = -(rho+1)^2/(2*rho+1)`, `alpha2 = rho^2/(2*rho+1)` and
`gamma = beta0*h`; at `rho = 1` they equal exactly `2/3`, `-4/3` and `1/3`. -/
theorem bdf2_coefficients (rho h : ℚ) (hrho : 0 < rho) :
    bdf2Beta0 rho = (rho + 1) / (2 * rho + 1) ∧
    bdf2Alpha1 rho = (-((rho + 1) ^ 2)) / (2 * rho + 1) ∧
    bdf2Alpha2 rho = rho ^ 2 / (2 * rho + 1) ∧
    bdf2Gamma rho h = bdf2Beta0 rho * h ∧
    bdf2Beta0 1 = 2 / 3 ∧ bdf2Alpha1 1 = -(4 / 3) ∧ bdf2Alpha2 1 = 1 / 3 :=
  ⟨rfl, rfl, rfl, rfl, by with_unfolding_all rfl, by with_unfolding_all rfl,
   by with_unfolding_all rfl⟩

/-- C6 witness: the statement instantiated at `rho = 1`, `h = 1`. -/
theorem bdf2_coefficients_witness :
    bdf2Beta0 1 = (1 + 1) / (2 * 1 + 1) ∧
    bdf2Alpha1 1 = (-((1 + 1) ^ 2)) / (2 * 1 + 1) ∧
    bdf2Alpha2 1 = 1 ^ 2 / (2 * 1 + 1) ∧
    bdf2Gamma 1 1 = bdf2Beta0 1 * 1 ∧
    bdf2Beta0 1 = 2 / 3 ∧ bdf2Alpha1 1 = -(4 / 3) ∧ bdf2Alpha2 1 = 1 / 3 :=
  bdf2_coefficients 1 1 (by norm_num)

/-! ### Claim C7 -/

/-- C7.  Whenever the (shared) Newton corrector of a trapezoidal step from
`(x_old, y)` to `x` converges, the value appended to the trajectory is
`(y_impl + y + euler_fw_dy)/2`, where `euler_fw_dy = h*rhs(x, y)` is the
explicit-Euler predictor increment computed before the corrector runs and
`y_impl` is exactly the backward-Euler-style corrected endpoint, i.e. the
result of `EulerBackward_example_integrator.step` on the same data. -/
theorem trapezoidal_step_average (rhs : ℚ → Vec → Vec) (jac : ℚ → Vec → Mat)
    (lus : Mat → Vec → Vec) (fuel ny : ℕ) (xold x : ℚ) (y yimpl : Vec) (iters : ℕ)
    (hbe : EulerBackward_example_integrator.step rhs jac lus fuel ny xold x y =
      some (yimpl, iters)) :
    Trapezoidal_example_integrator.step rhs jac lus fuel ny xold x y =
      some (vdiv (vadd (vadd yimpl y) (smul (x - xold) (rhs x y))) 2, iters) := by
  simp only [EulerBackward_example_integrator.step] at hbe
  simp only [Trapezoidal_example_integrator.step]
  rw [hbe]
  rfl

/-- C7 witness: for `dy/dx = 0` from `y = [1]` over the step `0 → 1` the
backward-Euler corrector converges to `[1]` after one iteration and the
trapezoidal step reports the average. -/
theorem trapezoidal_step_average_witness :
    Trapezoidal_example_integrator.step rhs0 jac0 lusNeg 1 1 0 1 [1] =
      some (vdiv (vadd (vadd [1] [1]) (smul (1 - 0) (rhs0 1 [1]))) 2, 1) :=
  trapezoidal_step_average rhs0 jac0 lusNeg 1 1 0 1 [1] [1] 1 (by with_unfolding_all rfl)

/-! ### Lemmas about the RK4 adaptive grid -/

namespace RK4_example_integrator

lemma xTrace_zero (xend dx0 x : ℚ) : xTrace xend dx0 0 x = [x] := rfl

lemma xTrace_succ (xend dx0 : ℚ) (m : ℕ) (x : ℚ) :
    xTrace xend dx0 (m + 1) x = x :: xTrace xend dx0 m (x + min dx0 (xend - x)) := rfl

lemma xTrace_length (xend dx0 : ℚ) :
    ∀ (m : ℕ) (x : ℚ), (xTrace xend dx0 m x).length = m + 1 := by
  intro m
  induction m with
  | zero => intro x; rfl
  | succ k ih => intro x; simp [xTrace_succ, ih]

lemma xTrace_head (xend dx0 : ℚ) (m : ℕ) (x : ℚ) :
    (xTrace xend dx0 m x).head? = some x := by
  cases m <;> rfl

lemma xTrace_cons (xend dx0 : ℚ) (m : ℕ) (x : ℚ) :
    ∃ t, xTrace xend dx0 m x = x :: t := by
  cases m <;> exact ⟨_, rfl⟩

lemma xTrace_dropLast (xend dx0 : ℚ) :
    ∀ (m : ℕ) (x : ℚ), (xTrace xend dx0 (m + 1) x).dropLast = xTrace xend dx0 m x := by
  intro m
  induction m with
  | zero => intro x; rfl
  | succ k ih =>
    intro x
    rw [xTrace_succ xend dx0 (k + 1) x, xTrace_succ xend dx0 k x]
    obtain ⟨t, ht⟩ := xTrace_cons xend dx0 (k + 1) (x + min dx0 (xend - x))
    rw [ht, List.dropLast_cons₂, ← ht, ih]

/-- The step `x + min dx0 (xend - x)` stays at or below `xend`. -/
lemma step_le_xend (xend dx0 x : ℚ) (hx : x ≤ xend) :
    x + min dx0 (xend - x) ≤ xend := by
  have := min_le_right dx0 (xend - x)
  linarith

/-- Fuel accounting for the remaining span after one step. -/
lemma ceil_after_step (xend dx0 x : ℚ) (hdx : 0 < dx0) (m : ℕ)
    (hm : ⌈(xend - x) / dx0⌉ ≤ (m : ℤ) + 1) :
    ⌈(xend - (x + min dx0 (xend - x))) / dx0⌉ ≤ (m : ℤ) := by
  rcases le_or_lt dx0 (xend - x) with hc | hc
  · rw [min_eq_left hc]
    have heq : (xend - (x + dx0)) / dx0 = (xend - x) / dx0 - 1 := by
      field_simp
      ring
    rw [heq, Int.ceil_sub_one]
    omega
  · rw [min_eq_right (le_of_lt hc)]
    have heq : xend - (x + (xend - x)) = 0 := by ring
    rw [heq]
    simp

lemma adaptiveGo_fst (rhs : ℚ → Vec → Vec) (xend dx0 : ℚ) :
    ∀ (m : ℕ) (x : ℚ) (y : Vec),
      (adaptiveGo rhs xend dx0 m x y).1 = xTrace xend dx0 m x := by
  intro m
  induction m with
  | zero => intro x y; rfl
  | succ k ih => intro x y; simp [adaptiveGo, xTrace_succ, ih]

lemma adaptiveGo_snd_length (rhs : ℚ → Vec → Vec) (xend dx0 : ℚ) :
    ∀ (m : ℕ) (x : ℚ) (y : Vec),
      (adaptiveGo rhs xend dx0 m x y).2.length = m + 1 := by
  intro m
  induction m with
  | zero => intro x y; rfl
  | succ k ih => intro x y; simp [adaptiveGo, ih]

lemma adaptiveGo_pair (rhs : ℚ → Vec → Vec) (xend dx0 : ℚ) (m : ℕ) (x : ℚ) (y : Vec) :
    ∃ t1 t2, adaptiveGo rhs xend dx0 m x y = (x :: t1, y :: t2) := by
  cases m <;> exact ⟨_, _, rfl⟩

/-- The last grid point generated with fuel at least `⌈(xend - x)/dx0⌉` is
exactly `xend`. -/
lemma xTrace_getLast (xend dx0 : ℚ) (hdx : 0 < dx0) :
    ∀ (m : ℕ) (x : ℚ), x ≤ xend → ⌈(xend - x) / dx0⌉ ≤ (m : ℤ) →
      (xTrace xend dx0 m x).getLast? = some xend := by
  intro m
  induction m with
  | zero =>
    intro x hx hceil
    have h0 : (xend - x) / dx0 ≤ 0 := by
      have := Int.ceil_le.mp (by exact_mod_cast hceil)
      exact_mod_cast this
    have h1 : xend - x ≤ 0 := by
      have h2 : (xend - x) / dx0 * dx0 ≤ 0 :=
        mul_nonpos_of_nonpos_of_nonneg h0 (le_of_lt hdx)
      rw [div_mul_cancel₀ _ (ne_of_gt hdx)] at h2
      exact h2
    have hxe : x = xend := le_antisymm hx (by linarith)
    rw [xTrace_zero, hxe]
    rfl
  | succ k ih =>
    intro x hx hceil
    rw [xTrace_succ]
    obtain ⟨t, ht⟩ := xTrace_cons xend dx0 k (x + min dx0 (xend - x))
    rw [ht, List.getLast?_cons_cons, ← ht]
    exact ih (x + min dx0 (xend - x)) (step_le_xend xend dx0 x hx)
      (ceil_after_step xend dx0 x hdx k (by exact_mod_cast hceil))

/-- With fuel at most `⌈(xend - x)/dx0⌉` the generated grid is strictly
increasing: every step before the span is exhausted has positive length. -/
lemma xTrace_chain_lt (xend dx0 : ℚ) (hdx : 0 < dx0) :
    ∀ (m : ℕ) (x : ℚ), x ≤ xend → (m : ℤ) ≤ ⌈(xend - x) / dx0⌉ →
      List.Chain' (fun s t => s < t) (xTrace xend dx0 m x) := by
  intro m
  induction m with
  | zero => intro x _ _; simp [xTrace_zero]
  | succ k ih =>
    intro x hx hm
    have hck : 0 < ⌈(xend - x) / dx0⌉ := by omega
    have hq : 0 < (xend - x) / dx0 := Int.ceil_pos.mp hck
    have hspan : 0 < xend - x := by
      by_contra hle
      have h2 : (xend - x) / dx0 ≤ 0 :=
        div_nonpos_of_nonpos_of_nonneg (by linarith) (le_of_lt hdx)
      linarith
    have hpos : 0 < min dx0 (xend - x) := lt_min hdx hspan
    rw [xTrace_succ, List.chain'_cons']
    constructor
    · intro z hz
      rw [xTrace_head] at hz
      have hz2 : x + min dx0 (xend - x) = z := by
        simpa using hz
      rw [← hz2]
      linarith
    · apply ih (x + min dx0 (xend - x)) (step_le_xend xend dx0 x hx)
      rcases le_or_lt dx0 (xend - x) with hc | hc
      · rw [min_eq_left hc]
        have heq : (xend - (x + dx0)) / dx0 = (xend - x) / dx0 - 1 := by
          field_simp
          ring
        rw [heq, Int.ceil_sub_one]
        omega
      · rw [min_eq_right (le_of_lt hc)]
        have heq : xend - (x + (xend - x)) = 0 := by ring
        have hle1 : (xend - x) / dx0 ≤ 1 := le_of_lt ((div_lt_one hdx).mpr hc)
        have hck1 : ⌈(xend - x) / dx0⌉ ≤ 1 := by
          rw [show (1 : ℤ) = ((1 : ℤ) : ℤ) from rfl, Int.ceil_le]
          exact_mod_cast hle1
        have hk0 : k = 0 := by omega
        rw [heq, hk0]
        simp

/-- Feeding the grid generated by the adaptive loop back into the
predefined-grid loop reproduces the same states. -/
lemma predefGo_adaptiveGo (rhs : ℚ → Vec → Vec) (xend dx0 : ℚ) :
    ∀ (m : ℕ) (x : ℚ) (y : Vec),
      predefGo rhs x y (adaptiveGo rhs xend dx0 m x y).1.tail =
        (adaptiveGo rhs xend dx0 m x y).2.tail := by
  intro m
  induction m with
  | zero => intro x y; rfl
  | succ k ih =>
    intro x y
    obtain ⟨t1, t2, ht⟩ := adaptiveGo_pair rhs xend dx0 k
      (x + min dx0 (xend - x)) (rk4Step rhs x (min dx0 (xend - x)) y)
    have hih := ih (x + min dx0 (xend - x)) (rk4Step rhs x (min dx0 (xend - x)) y)
    rw [ht] at hih
    simp only [List.tail_cons] at hih
    simp [adaptiveGo, ht, predefGo, add_sub_cancel_left, hih]

end RK4_example_integrator

/-! ### Claim C2 -/

/-- C2, counterexample.  At `rhs = rhs0`, `y0 = [0]`, `x0 = 0`, `xend = 1`,
`dx0 = 1` (so `dx0 > 0` and `xend > x0`), the adaptive trajectory has
`3` entries, not `ceil((xend - x0)/dx0) + 1 = 2`: the loop
`for i in range(0, n+1)` runs `n+1` times, one more step than the claim
counts, appending a final zero-length step. -/
theorem rk4_adaptive_length_claim_false :
    (RK4_example_integrator.integrate_adaptive rhs0 [0] 0 1 1).xout.length ≠
      ⌈((1 : ℚ) - 0) / 1⌉.toNat + 1 := by
  rw [show (RK4_example_integrator.integrate_adaptive rhs0 [0] 0 1 1).xout.length = 3
    by with_unfolding_all rfl]
  norm_num

/-- C2 (amended).  For `dx0 > 0` and `xend > x0`, the trajectory returned by
RK4 `integrate_adaptive` has exactly `ceil((xend - x0)/dx0) + 2` entries (in
both `xout` and `yout`): the loop runs `ceil((xend - x0)/dx0) + 1` times on
top of the initial entry. -/
theorem rk4_adaptive_length (rhs : ℚ → Vec → Vec) (y0 : Vec) (x0 xend dx0 : ℚ)
    (hdx : 0 < dx0) (hx : x0 < xend) :
    (RK4_example_integrator.integrate_adaptive rhs y0 x0 xend dx0).xout.length =
      ⌈(xend - x0) / dx0⌉.toNat + 2 ∧
    (RK4_example_integrator.integrate_adaptive rhs y0 x0 xend dx0).yout.length =
      ⌈(xend - x0) / dx0⌉.toNat + 2 := by
  have hn : (0 : ℤ) < ⌈(xend - x0) / dx0⌉ :=
    Int.ceil_pos.mpr (div_pos (by linarith) hdx)
  constructor
  · simp only [RK4_example_integrator.integrate_adaptive]
    rw [RK4_example_integrator.adaptiveGo_fst, RK4_example_integrator.xTrace_length]
    omega
  · simp only [RK4_example_integrator.integrate_adaptive]
    rw [RK4_example_integrator.adaptiveGo_snd_length]
    omega

/-- C2 witness: the amended count at `rhs0`, `y0 = [0]`, span `[0, 1]`,
`dx0 = 1`. -/
theorem rk4_adaptive_length_witness :
    (RK4_example_integrator.integrate_adaptive rhs0 [0] 0 1 1).xout.length =
      ⌈((1 : ℚ) - 0) / 1⌉.toNat + 2 ∧
    (RK4_example_integrator.integrate_adaptive rhs0 [0] 0 1 1).yout.length =
      ⌈((1 : ℚ) - 0) / 1⌉.toNat + 2 :=
  rk4_adaptive_length rhs0 [0] 0 1 1 (by norm_num) (by norm_num)

/-! ### Claim C3 -/

/-- C3, counterexample.  At `rhs = rhs0`, `y0 = [0]`, `x0 = 0`, `xend = 1`,
`dx0 = 1` the adaptive grid is `[0, 1, 1]`: its last element is `xend = 1`
but it is not strictly increasing (the final zero-length step duplicates
`xend`), refuting the claimed conjunction. -/
theorem rk4_adaptive_xout_not_strictMono :
    ¬ (List.Chain' (fun s t => s < t)
        (RK4_example_integrator.integrate_adaptive rhs0 [0] 0 1 1).xout ∧
      (RK4_example_integrator.integrate_adaptive rhs0 [0] 0 1 1).xout.getLast? =
        some 1) := by
  intro hcl
  have hx : (RK4_example_integrator.integrate_adaptive rhs0 [0] 0 1 1).xout =
      [0, 1, 1] := by
    with_unfolding_all rfl
  rw [hx] at hcl
  simp [List.chain'_cons] at hcl

/-- C3 (amended).  For `dx0 > 0` and `xend > x0`, the adaptive grid is
strictly increasing except for its final entry: `xout.dropLast` is strictly
increasing, and both the last entry and the one before it equal `xend` (the
final loop iteration takes a zero-length step from `xend`). -/
theorem rk4_adaptive_xout_shape (rhs : ℚ → Vec → Vec) (y0 : Vec) (x0 xend dx0 : ℚ)
    (hdx : 0 < dx0) (hx : x0 < xend) :
    List.Chain' (fun s t => s < t)
      (RK4_example_integrator.integrate_adaptive rhs y0 x0 xend dx0).xout.dropLast ∧
    (RK4_example_integrator.integrate_adaptive rhs y0 x0 xend dx0).xout.getLast? =
      some xend ∧
    (RK4_example_integrator.integrate_adaptive rhs y0 x0 xend
      dx0).xout.dropLast.getLast? = some xend := by
  have hn : (0 : ℤ) < ⌈(xend - x0) / dx0⌉ :=
    Int.ceil_pos.mpr (div_pos (by linarith) hdx)
  have hxout : (RK4_example_integrator.integrate_adaptive rhs y0 x0 xend dx0).xout =
      RK4_example_integrator.xTrace xend dx0
        (⌈(xend - x0) / dx0⌉.toNat + 1) x0 := by
    simp only [RK4_example_integrator.integrate_adaptive]
    rw [RK4_example_integrator.adaptiveGo_fst]
    congr 1
    omega
  rw [hxout, RK4_example_integrator.xTrace_dropLast]
  refine ⟨?_, ?_, ?_⟩
  · exact RK4_example_integrator.xTrace_chain_lt xend dx0 hdx _ x0 (le_of_lt hx)
      (by omega)
  · exact RK4_example_integrator.xTrace_getLast xend dx0 hdx _ x0 (le_of_lt hx)
      (by omega)
  · exact RK4_example_integrator.xTrace_getLast xend dx0 hdx _ x0 (le_of_lt hx)
      (by omega)

/-- C3 witness: the amended shape at `rhs0`, `y0 = [0]`, span `[0, 1]`,
`dx0 = 1`. -/
theorem rk4_adaptive_xout_shape_witness :
    List.Chain' (fun s t => s < t)
      (RK4_example_integrator.integrate_adaptive rhs0 [0] 0 1 1).xout.dropLast ∧
    (RK4_example_integrator.integrate_adaptive rhs0 [0] 0 1 1).xout.getLast? =
      some 1 ∧
    (RK4_example_integrator.integrate_adaptive rhs0 [0] 0 1
      1).xout.dropLast.getLast? = some 1 :=
  rk4_adaptive_xout_shape rhs0 [0] 0 1 1 (by norm_num) (by norm_num)

/-! ### Claim C4 -/

/-- C4, counterexample.  At `rhs = rhs0`, `y0 = [0]`, `x0 = 0`, `xend = 1`,
`dx0 = 1` the adaptive mode reports `nfev = 4` although the loop executed two
iterations, i.e. `8` rhs evaluations in two four-stage blocks: the reported
`nfev = n*4` is not `4` times the number of steps performed. -/
theorem rk4_adaptive_nfev_claim_false :
    (RK4_example_integrator.integrate_adaptive rhs0 [0] 0 1 1).nfev ≠
      ((RK4_example_integrator.integrate_adaptive rhs0 [0] 0 1 1).rhsCalls : ℤ) := by
  rw [show (RK4_example_integrator.integrate_adaptive rhs0 [0] 0 1 1).nfev = 4
      by with_unfolding_all rfl,
    show (RK4_example_integrator.integrate_adaptive rhs0 [0] 0 1 1).rhsCalls = 8
      by with_unfolding_all rfl]
  norm_num

/-- C4 (amended).  In predefined mode the reported `nfev = 4*(len(xout)-1)`
equals the number of rhs evaluations (four per step).  In adaptive mode (for
`dx0 > 0`, `xend > x0`) the reported `nfev = 4*ceil((xend - x0)/dx0)`
undercounts the executed four-stage blocks by exactly one block: the loop
performs one more iteration than `nfev/4` counts. -/
theorem rk4_nfev_accounting (rhs : ℚ → Vec → Vec) (y0 : Vec) (x0 xend dx0 : ℚ)
    (hdx : 0 < dx0) (hx : x0 < xend) :
    (RK4_example_integrator.integrate_adaptive rhs y0 x0 xend dx0).nfev =
      ⌈(xend - x0) / dx0⌉ * 4 ∧
    ((RK4_example_integrator.integrate_adaptive rhs y0 x0 xend dx0).rhsCalls : ℤ) =
      (RK4_example_integrator.integrate_adaptive rhs y0 x0 xend dx0).nfev + 4 ∧
    (∀ (x0' : ℚ) (xs : List ℚ) (r : PredefResult),
      RK4_example_integrator.integrate_predefined rhs y0 (x0' :: xs) = some r →
        r.nfev = xs.length * 4 ∧ r.rhsCalls = r.nfev) := by
  have hn : (0 : ℤ) < ⌈(xend - x0) / dx0⌉ :=
    Int.ceil_pos.mpr (div_pos (by linarith) hdx)
  refine ⟨?_, ?_, ?_⟩
  · simp only [RK4_example_integrator.integrate_adaptive]
  · simp only [RK4_example_integrator.integrate_adaptive]
    omega
  · intro x0' xs r hr
    simp only [RK4_example_integrator.integrate_predefined, Option.some.injEq] at hr
    rw [← hr]
    simp only [List.length_cons]
    constructor
    · simp
    · simp [Nat.mul_comm]

/-- C4 witness: the adaptive accounting at `rhs0`, `y0 = [0]`, span `[0, 1]`,
`dx0 = 1`, and the predefined accounting on the grid `[0, 1]`. -/
theorem rk4_nfev_accounting_witness :
    ((RK4_example_integrator.integrate_adaptive rhs0 [0] 0 1 1).nfev =
      ⌈((1 : ℚ) - 0) / 1⌉ * 4 ∧
    ((RK4_example_integrator.integrate_adaptive rhs0 [0] 0 1 1).rhsCalls : ℤ) =
      (RK4_example_integrator.integrate_adaptive rhs0 [0] 0 1 1).nfev + 4) ∧
    (⟨[[0], [0]], 4, 4, 0⟩ : PredefResult).nfev = [(1 : ℚ)].length * 4 ∧
    (⟨[[0], [0]], 4, 4, 0⟩ : PredefResult).rhsCalls =
      (⟨[[0], [0]], 4, 4, 0⟩ : PredefResult).nfev :=
  ⟨⟨(rk4_nfev_accounting rhs0 [0] 0 1 1 (by norm_num) (by norm_num)).1,
    (rk4_nfev_accounting rhs0 [0] 0 1 1 (by norm_num) (by norm_num)).2.1⟩,
   (rk4_nfev_accounting rhs0 [0] 0 1 1 (by norm_num) (by norm_num)).2.2 0 [1]
     ⟨[[0], [0]], 4, 4, 0⟩ (by with_unfolding_all rfl)⟩

/-! ### Claim C8 -/

/-- C8.  For every rhs, `y0`, `x0 < xend` and `dx0 > 0`, feeding the `xout`
produced by RK4 `integrate_adaptive` into RK4 `integrate_predefined` (same
rhs and `y0`) reproduces exactly the same `yout` over exact arithmetic: the
step sizes in predefined mode are the consecutive grid differences, which
coincide with the adaptive step sizes (including the final zero-length one). -/
theorem rk4_roundtrip (rhs : ℚ → Vec → Vec) (y0 : Vec) (x0 xend dx0 : ℚ)
    (hdx : 0 < dx0) (hx : x0 < xend) :
    (RK4_example_integrator.integrate_predefined rhs y0
        (RK4_example_integrator.integrate_adaptive rhs y0 x0 xend dx0).xout).map
      PredefResult.yout =
      some (RK4_example_integrator.integrate_adaptive rhs y0 x0 xend dx0).yout := by
  obtain ⟨t1, t2, ht⟩ := RK4_example_integrator.adaptiveGo_pair rhs xend dx0
    ((⌈(xend - x0) / dx0⌉ + 1).toNat) x0 y0
  have hpg := RK4_example_integrator.predefGo_adaptiveGo rhs xend dx0
    ((⌈(xend - x0) / dx0⌉ + 1).toNat) x0 y0
  rw [ht] at hpg
  simp only [List.tail_cons] at hpg
  simp only [RK4_example_integrator.integrate_adaptive, ht]
  simp only [RK4_example_integrator.integrate_predefined, Option.map_some']
  rw [hpg]

/-- C8 witness: the round trip at `rhs0`, `y0 = [0]`, span `[0, 1]`, `dx0 = 1`. -/
theorem rk4_roundtrip_witness :
    (RK4_example_integrator.integrate_predefined rhs0 [0]
        (RK4_example_integrator.integrate_adaptive rhs0 [0] 0 1 1).xout).map
      PredefResult.yout =
      some (RK4_example_integrator.integrate_adaptive rhs0 [0] 0 1 1).yout :=
  rk4_roundtrip rhs0 [0] 0 1 1 (by norm_num) (by norm_num)

/-! ### Trajectory-length lemmas for the predefined-grid loops -/

lemma rk4_predefGo_length (rhs : ℚ → Vec → Vec) :
    ∀ (xs : List ℚ) (xold : ℚ) (y : Vec),
      (RK4_example_integrator.predefGo rhs xold y xs).length = xs.length := by
  intro xs
  induction xs with
  | nil => intro xold y; rfl
  | cons x xs ih => intro xold y; simp [RK4_example_integrator.predefGo, ih]

lemma euler_fw_predefGo_length (rhs : ℚ → Vec → Vec) :
    ∀ (xs : List ℚ) (xold : ℚ) (y : Vec),
      (EulerForward_example_integrator.predefGo rhs xold y xs).length = xs.length := by
  intro xs
  induction xs with
  | nil => intro xold y; rfl
  | cons x xs ih => intro xold y; simp [EulerForward_example_integrator.predefGo, ih]

lemma midpoint_predefGo_length (rhs : ℚ → Vec → Vec) :
    ∀ (xs : List ℚ) (xold : ℚ) (y : Vec),
      (Midpoint_example_integrator.predefGo rhs xold y xs).length = xs.length := by
  intro xs
  induction xs with
  | nil => intro xold y; rfl
  | cons x xs ih => intro xold y; simp [Midpoint_example_integrator.predefGo, ih]

lemma be_predefGo_length (rhs : ℚ → Vec → Vec) (jac : ℚ → Vec → Mat)
    (lus : Mat → Vec → Vec) (fuel ny : ℕ) :
    ∀ (xs : List ℚ) (xold : ℚ) (y : Vec) (p : List Vec × ℕ),
      EulerBackward_example_integrator.predefGo rhs jac lus fuel ny xold y xs =
        some p → p.1.length = xs.length := by
  intro xs
  induction xs with
  | nil =>
    intro xold y p hp
    simp only [EulerBackward_example_integrator.predefGo, Option.some.injEq] at hp
    rw [← hp]
    rfl
  | cons x xs ih =>
    intro xold y p hp
    simp only [EulerBackward_example_integrator.predefGo] at hp
    split at hp
    · exact absurd hp (by simp)
    · split at hp
      · exact absurd hp (by simp)
      · next p2 hrec =>
          rw [← Option.some.inj hp]
          simp [ih x _ p2 hrec]

lemma trap_predefGo_length (rhs : ℚ → Vec → Vec) (jac : ℚ → Vec → Mat)
    (lus : Mat → Vec → Vec) (fuel ny : ℕ) :
    ∀ (xs : List ℚ) (xold : ℚ) (y : Vec) (p : List Vec × ℕ),
      Trapezoidal_example_integrator.predefGo rhs jac lus fuel ny xold y xs =
        some p → p.1.length = xs.length := by
  intro xs
  induction xs with
  | nil =>
    intro xold y p hp
    simp only [Trapezoidal_example_integrator.predefGo, Option.some.injEq] at hp
    rw [← hp]
    rfl
  | cons x xs ih =>
    intro xold y p hp
    simp only [Trapezoidal_example_integrator.predefGo] at hp
    split at hp
    · exact absurd hp (by simp)
    · split at hp
      · exact absurd hp (by simp)
      · next p2 hrec =>
          rw [← Option.some.inj hp]
          simp [ih x _ p2 hrec]

lemma bdf2_predefGo_length (rhs : ℚ → Vec → Vec) (jac : ℚ → Vec → Mat)
    (lus : Mat → Vec → Vec) (tol : ℚ) (iter_max ny : ℕ) :
    ∀ (xs : List ℚ) (xold hold : ℚ) (yprev ycur : Vec),
      (BDF2FVC_example_integrator.predefGo rhs jac lus tol iter_max ny xold hold
        yprev ycur xs).1.length = xs.length := by
  intro xs
  induction xs with
  | nil => intro xold hold yprev ycur; rfl
  | cons x xs ih =>
    intro xold hold yprev ycur
    simp [BDF2FVC_example_integrator.predefGo, ih]

/-! ### Claim C9 -/

/-- C9.  Every stepper's `integrate_predefined`, called on a grid of length
`m ≥ 2` (written `x0 :: x1 :: rest`), returns — whenever it returns, which
for the explicit steppers is always and for the implicit ones and BDF2 is
conditional on corrector convergence and, for BDF2, on grid length — a `yout`
with exactly `m` rows whose row 0 is the supplied `y0`.  The source leaves
the `y0` argument unmodified (`yout` starts from the copy `y0[:]` and each
step allocates a fresh array); the embedding is pure, which reflects this:
row 0 is the value `y0` itself. -/
theorem predefined_yout_shape (rhs : ℚ → Vec → Vec) (jac : ℚ → Vec → Mat)
    (lus : Mat → Vec → Vec) (fuel : ℕ) (tol_iter : ℚ) (iter_max : ℕ)
    (y0 : Vec) (x0 x1 : ℚ) (rest : List ℚ) :
    (∀ r : PredefResult,
      RK4_example_integrator.integrate_predefined rhs y0 (x0 :: x1 :: rest) =
        some r →
      r.yout.length = (x0 :: x1 :: rest).length ∧ r.yout.head? = some y0) ∧
    (∀ r : PredefResult,
      EulerForward_example_integrator.integrate_predefined rhs y0
          (x0 :: x1 :: rest) = some r →
      r.yout.length = (x0 :: x1 :: rest).length ∧ r.yout.head? = some y0) ∧
    (∀ r : PredefResult,
      Midpoint_example_integrator.integrate_predefined rhs y0
          (x0 :: x1 :: rest) = some r →
      r.yout.length = (x0 :: x1 :: rest).length ∧ r.yout.head? = some y0) ∧
    (∀ r : PredefResult,
      EulerBackward_example_integrator.integrate_predefined rhs jac lus fuel y0
          (x0 :: x1 :: rest) = some r →
      r.yout.length = (x0 :: x1 :: rest).length ∧ r.yout.head? = some y0) ∧
    (∀ r : PredefResult,
      Trapezoidal_example_integrator.integrate_predefined rhs jac lus fuel y0
          (x0 :: x1 :: rest) = some r →
      r.yout.length = (x0 :: x1 :: rest).length ∧ r.yout.head? = some y0) ∧
    (∀ r : PredefResult,
      BDF2FVC_example_integrator.integrate_predefined rhs jac lus fuel tol_iter
          iter_max y0 (x0 :: x1 :: rest) = some r →
      r.yout.length = (x0 :: x1 :: rest).length ∧ r.yout.head? = some y0) := by
  refine ⟨?_, ?_, ?_, ?_, ?_, ?_⟩
  · intro r hr
    simp only [RK4_example_integrator.integrate_predefined, Option.some.injEq] at hr
    rw [← hr]
    exact ⟨by simp [rk4_predefGo_length], rfl⟩
  · intro r hr
    simp only [EulerForward_example_integrator.integrate_predefined,
      Option.some.injEq] at hr
    rw [← hr]
    exact ⟨by simp [euler_fw_predefGo_length], rfl⟩
  · intro r hr
    simp only [Midpoint_example_integrator.integrate_predefined,
      Option.some.injEq] at hr
    rw [← hr]
    exact ⟨by simp [midpoint_predefGo_length], rfl⟩
  · intro r hr
    simp only [EulerBackward_example_integrator.integrate_predefined,
      Option.map_eq_some'] at hr
    obtain ⟨p, hp, hr2⟩ := hr
    rw [← hr2]
    exact ⟨by simp [be_predefGo_length rhs jac lus fuel y0.length _ _ _ p hp], rfl⟩
  · intro r hr
    simp only [Trapezoidal_example_integrator.integrate_predefined,
      Option.map_eq_some'] at hr
    obtain ⟨p, hp, hr2⟩ := hr
    rw [← hr2]
    exact ⟨by simp [trap_predefGo_length rhs jac lus fuel y0.length _ _ _ p hp], rfl⟩
  · intro r hr
    simp only [BDF2FVC_example_integrator.integrate_predefined] at hr
    split at hr
    · exact absurd hr (by simp)
    · split at hr
      · next xo yo x0m x1m restm hd y1 tl heqx heqy =>
          rw [← Option.some.inj hr]
          have hlen : restm.length = rest.length := by
            injection heqx with h1 h2
            injection h2 with h3 h4
            rw [h4]
          exact ⟨by simp [bdf2_predefGo_length, hlen], rfl⟩
      · exact absurd hr (by simp)

/-- C9 witness: the BDF2 conjunct at `dy/dx = 0`, `y0 = [1]`, grid
`[0, 1, 2]`, exact solver `lusNeg`: the call returns three rows headed by
`y0`. -/
theorem predefined_yout_shape_witness :
    (⟨[[1], [1], [-1]], 2, 5, 3⟩ : PredefResult).yout.length =
      ((0 : ℚ) :: 1 :: [2]).length ∧
    (⟨[[1], [1], [-1]], 2, 5, 3⟩ : PredefResult).yout.head? = some [1] :=
  (predefined_yout_shape rhs0 jac0 lusNeg 3 (1 / 10 ^ 12) 20 [1] 0 1 [2]).2.2.2.2.2
    ⟨[[1], [1], [-1]], 2, 5, 3⟩ (by with_unfolding_all rfl)

/-! ### Claim C10 -/

/-- C10.  Backward Euler, trapezoidal and BDF2 `integrate_predefined` all
report `nfev = m - 1` for a grid of length `m`, regardless of how many Newton
iterations ran: the actual number of rhs invocations is
`nfev + total Newton iterations`, so whenever at least one Newton iteration
executed the reported `nfev` is strictly below the actual count. -/
theorem implicit_nfev_undercount (rhs : ℚ → Vec → Vec) (jac : ℚ → Vec → Mat)
    (lus : Mat → Vec → Vec) (fuel : ℕ) (tol_iter : ℚ) (iter_max : ℕ)
    (y0 : Vec) (x0 : ℚ) (rest : List ℚ) :
    (∀ r : PredefResult,
      EulerBackward_example_integrator.integrate_predefined rhs jac lus fuel y0
          (x0 :: rest) = some r →
      r.nfev = (x0 :: rest).length - 1 ∧ r.rhsCalls = r.nfev + r.newtonIters ∧
        (1 ≤ r.newtonIters → r.nfev < r.rhsCalls)) ∧
    (∀ r : PredefResult,
      Trapezoidal_example_integrator.integrate_predefined rhs jac lus fuel y0
          (x0 :: rest) = some r →
      r.nfev = (x0 :: rest).length - 1 ∧ r.rhsCalls = r.nfev + r.newtonIters ∧
        (1 ≤ r.newtonIters → r.nfev < r.rhsCalls)) ∧
    (∀ r : PredefResult,
      BDF2FVC_example_integrator.integrate_predefined rhs jac lus fuel tol_iter
          iter_max y0 (x0 :: rest) = some r →
      r.nfev = (x0 :: rest).length - 1 ∧ r.rhsCalls = r.nfev + r.newtonIters ∧
        (1 ≤ r.newtonIters → r.nfev < r.rhsCalls)) := by
  refine ⟨?_, ?_, ?_⟩
  · intro r hr
    simp only [EulerBackward_example_integrator.integrate_predefined,
      Option.map_eq_some'] at hr
    obtain ⟨p, _, hr2⟩ := hr
    rw [← hr2]
    refine ⟨by simp, rfl, ?_⟩
    intro h1
    simp only [List.length_cons] at h1 ⊢
    omega
  · intro r hr
    simp only [Trapezoidal_example_integrator.integrate_predefined,
      Option.map_eq_some'] at hr
    obtain ⟨p, _, hr2⟩ := hr
    rw [← hr2]
    refine ⟨by simp, rfl, ?_⟩
    intro h1
    simp only [List.length_cons] at h1 ⊢
    omega
  · intro r hr
    simp only [BDF2FVC_example_integrator.integrate_predefined] at hr
    split at hr
    · exact absurd hr (by simp)
    · next tr htr =>
      split at hr
      · next xo yo x0m x1m restm hd y1 tl heqx heqy =>
        rw [← Option.some.inj hr]
        -- the bootstrap runs on `(x0 :: rest).take 2 = [x0m, x1m]`
        have hx01 : (x0 :: rest).take 2 = [x0m, x1m] := by
          rw [heqx]
          rfl
        rw [hx01] at htr
        simp only [Trapezoidal_example_integrator.integrate_predefined,
          Option.map_eq_some'] at htr
        obtain ⟨p, _, htr2⟩ := htr
        have hcalls : tr.rhsCalls = 1 + p.2 := by rw [← htr2]; rfl
        have hiters : tr.newtonIters = p.2 := by rw [← htr2]
        refine ⟨by rw [heqx], ?_, ?_⟩
        · simp only [hcalls, hiters, List.length_cons]
          omega
        · intro h1
          simp only [hcalls, hiters, List.length_cons] at h1 ⊢
          omega
      · exact absurd hr (by simp)

/-- C10 witness: the backward-Euler conjunct at `dy/dx = 0`, `y0 = [1]`, grid
`[0, 1]`: the call converges after one Newton iteration, reports `nfev = 1`
but invoked the rhs twice. -/
theorem implicit_nfev_undercount_witness :
    (⟨[[1], [1]], 1, 2, 1⟩ : PredefResult).nfev = ((0 : ℚ) :: [1]).length - 1 ∧
    (⟨[[1], [1]], 1, 2, 1⟩ : PredefResult).rhsCalls =
      (⟨[[1], [1]], 1, 2, 1⟩ : PredefResult).nfev +
        (⟨[[1], [1]], 1, 2, 1⟩ : PredefResult).newtonIters ∧
    (1 ≤ (⟨[[1], [1]], 1, 2, 1⟩ : PredefResult).newtonIters →
      (⟨[[1], [1]], 1, 2, 1⟩ : PredefResult).nfev <
        (⟨[[1], [1]], 1, 2, 1⟩ : PredefResult).rhsCalls) :=
  (implicit_nfev_undercount rhs0 jac0 lusNeg 1 (1 / 10 ^ 12) 20 [1] 0 [1]).1
    ⟨[[1], [1]], 1, 2, 1⟩ (by with_unfolding_all rfl)

end Pyodesys
